import Mathlib

/-!
Verification of `Lyapunov/lyapunov.py` (Hénon-map Lyapunov exponent
computation).

Conventions of the embedding:
* Python floats are modelled as rationals (`ℚ`); all vector and matrix
  arithmetic performed by the source is exact under this model.
* `np.log` is modelled by an arbitrary parameter `lg : ℚ → ℚ`: the source
  only pipes norms through the logarithm and never branches on the result,
  so the structural statements below are proved for every `lg`.
* The external collaborators (`Henon` from `full_attractor.py`, and
  `determine_point`, `determine_period`, `solve_eig_vals` from `general.py`)
  are outside the core; they are modelled as oracle parameters following the
  interfaces in the specification.
* Division by zero yields `0` in `ℚ` where numpy would produce `inf`/`nan`;
  the statements proved below never depend on values downstream of such a
  division (they only use the structure of the control flow there).
-/

namespace Henon

/-- Source `norm_vect`: the sum of the squared components
(the squared Euclidean norm, not the Euclidean norm). -/
def norm_vect (v : List ℚ) : ℚ := (v.map fun i => i * i).sum

/-- Source `inner_vect`: elementwise product sum.  The source
indexes both vectors over `range(len(vect1))`; it is only ever called with
equal-length vectors, for which this `zipWith` is the same function. -/
def inner_vect (v1 v2 : List ℚ) : ℚ := (List.zipWith (fun a b => a * b) v1 v2).sum

/-- Scalar times vector, as numpy broadcasting `c * v`. -/
def smul (c : ℚ) (v : List ℚ) : List ℚ := v.map fun x => c * x

/-- Elementwise vector subtraction, as numpy `v - w` for equal shapes. -/
def vsub (v w : List ℚ) : List ℚ := List.zipWith (fun a b => a - b) v w

/-- Source `proj_vect`: `(inner_vect(vect1, vect2) / norm_vect(vect1)) * vect1`. -/
def proj_vect (v1 v2 : List ℚ) : List ℚ := smul (inner_vect v1 v2 / norm_vect v1) v1

/-- Source `basis`: `dim` vectors `np.zeros(dim)` with a `1` added
at position `i` — the standard basis. -/
def basisFn (dim : ℕ) : List (List ℚ) :=
  (List.range dim).map fun i => (List.range dim).map fun j => if i = j then 1 else 0

/-- Source `Gram_Schmidt`.  For `v = 1, …, len-1` the inner Python
loop `for j in range(v)` reassigns `new_vect` on every pass, so only the
last pass `j = v - 1` survives: entry `v` of the output is
`vectors[v] - proj_vect(vectors[v-1], vectors[v])`.  Below the range index
is `i = v - 1`.  On an empty input the source raises `IndexError`; the
claims only concern non-empty inputs. -/
def Gram_Schmidt (vectors : List (List ℚ)) : List (List ℚ) :=
  match vectors with
  | [] => []
  | v0 :: rest =>
      v0 :: (List.range rest.length).map fun i =>
        vsub ((v0 :: rest).getD (i + 1) [])
          (proj_vect ((v0 :: rest).getD i []) ((v0 :: rest).getD (i + 1) []))

/-- The Hénon Jacobian built by the source:
`J = np.array([[-2*A*x, 1], [B, 0]])`, as a pair of rows. -/
def jacobian (A B x : ℚ) : (ℚ × ℚ) × (ℚ × ℚ) := ((-2 * A * x, 1), (B, 0))

/-- Numpy `np.matmul` of the 2×2 Jacobian with a 2-dimensional vector, which is
the only shape the source multiplies. -/
def matmul2 (m : (ℚ × ℚ) × (ℚ × ℚ)) (v : List ℚ) : List ℚ :=
  [m.1.1 * v.getD 0 0 + m.1.2 * v.getD 1 0,
   m.2.1 * v.getD 0 0 + m.2.2 * v.getD 1 0]

/-- One accumulate-and-normalize pass of `Lyapunov` (the source loop
`for i in range(dim)`): each vector adds `lg` of its norm to its
accumulator slot and is divided componentwise by that norm. -/
def accumNorm (lg : ℚ → ℚ) (us : List (List ℚ)) (exps : List ℚ) :
    List (List ℚ) × List ℚ :=
  (us.map fun u => smul (1 / norm_vect u) u,
   List.zipWith (fun e u => e + lg (norm_vect u)) exps us)

/-- The loop state of `Lyapunov`: the current value of the program variable
`J`, the current vectors `u_nk`, and the accumulators `exponents`. -/
structure LyapState where
  J : (ℚ × ℚ) × (ℚ × ℚ)
  us : List (List ℚ)
  exps : List ℚ
deriving DecidableEq

/-- The state after the first step of the source (lines before the loop):
`J` built from `xvalues[0]`, one propagation of the basis, `Gram_Schmidt`,
one accumulate-and-normalize pass. -/
def lyapInit (lg : ℚ → ℚ) (bs : List (List ℚ)) (xs : List ℚ) (A B : ℚ) :
    LyapState :=
  let J := jacobian A B (xs.getD 0 0)
  let v1 := bs.map (matmul2 J)
  let u1 := Gram_Schmidt v1
  let p := accumNorm lg u1 (List.replicate bs.length 0)
  ⟨J, p.1, p.2⟩

/-- The body of the source loop `for n in range(1, N)`: propagate with the
current `J`, orthogonalize, accumulate and normalize, and only then rebuild
`J` from `xvalues[n]`. -/
def lyapStep (lg : ℚ → ℚ) (xs : List ℚ) (A B : ℚ) (st : LyapState) (n : ℕ) :
    LyapState :=
  let v := st.us.map (matmul2 st.J)
  let u := Gram_Schmidt v
  let p := accumNorm lg u st.exps
  ⟨jacobian A B (xs.getD n 0), p.1, p.2⟩

/-- The loop state on entry to iteration `n` (meaningful for `n ≥ 1`):
the first step followed by the loop iterations `1, …, n-1`. -/
def LyapStateAt (lg : ℚ → ℚ) (bs : List (List ℚ)) (xs : List ℚ) (A B : ℚ)
    (n : ℕ) : LyapState :=
  (List.range' 1 (n - 1)).foldl (lyapStep lg xs A B) (lyapInit lg bs xs A B)

/-- Source `Lyapunov`: the first step, the loop iterations
`range(1, N)`, then each accumulator divided by `N`. -/
def Lyapunov (lg : ℚ → ℚ) (N : ℕ) (bs : List (List ℚ)) (xs : List ℚ)
    (A B : ℚ) : List ℚ :=
  (LyapStateAt lg bs xs A B N).exps.map fun e => e / (N : ℚ)

/-- Holds (as `true`) iff an orthogonalized vector of the first step or of a loop
iteration `n ∈ {1, …, N-1}` has zero `norm_vect` there — the degenerate
situation in which the source would evaluate `np.log(0)` and divide by
zero. -/
def LyapHasZeroNorm (lg : ℚ → ℚ) (bs : List (List ℚ)) (xs : List ℚ)
    (A B : ℚ) (N : ℕ) : Bool :=
  ((Gram_Schmidt (bs.map (matmul2 (jacobian A B (xs.getD 0 0))))).any
      fun u => norm_vect u == 0)
    || ((List.range' 1 (N - 1)).any fun n =>
        (Gram_Schmidt ((LyapStateAt lg bs xs A B n).us.map
            (matmul2 (LyapStateAt lg bs xs A B n).J))).any
          fun u => norm_vect u == 0)

/-- Trajectory oracle `Henon` (external, `full_attractor.py`): the orbit
`(xvalues, yvalues)`, or `none` for the divergence sentinel `(None, None)`.
Arguments: `x0 y0 Ninit a b div`. -/
abbrev HenonOracle := ℚ → ℚ → ℕ → ℚ → ℚ → Bool → Option (List ℚ × List ℚ)

/-- Fixed-point oracle `determine_point` (external, `general.py`): the
source passes it the orbit arrays, which are the `None` sentinels when the
orbit diverged — hence the `Option` arguments.  Returns the attracting
point (indexable, the source uses entry `[0]`) or `none`. -/
abbrev PointOracle := Option (List ℚ) → Option (List ℚ) → Option (List ℚ)

/-- Periodic-cycle oracle `determine_period` (external, `general.py`):
returns the period and the periodic x-points (the source uses entry `[1]`),
or `none`. -/
abbrev PeriodOracle := Option (List ℚ) → Option (List ℚ) → Option (ℕ × List ℚ)

/-- Eigenvalue oracle `solve_eig_vals` (external, `general.py`): the two
roots of the characteristic equation of the Jacobian at `xp`. -/
abbrev EigOracle := ℚ → ℚ → ℚ → ℚ × ℚ

/-- Source `lyapunov_point`: the exponents of a point attractor,
`[max, min]` of the logs of the eigenvalue magnitudes. -/
def lyapunov_point (lg : ℚ → ℚ) (eig : EigOracle) (xp av bv : ℚ) : List ℚ :=
  let s := eig xp av bv
  [max (lg |s.1|) (lg |s.2|), min (lg |s.1|) (lg |s.2|)]

/-- Numpy `np.mean`: the arithmetic mean (`nan` on an empty list in numpy; junk
`0/0 = 0` here). -/
def npMean (l : List ℚ) : ℚ := l.sum / l.length

/-- Source `lyapunov_period`: per-point exponent pairs along the
cycle (destructured as `lya_max, lya_min`), branch-wise means, and the two
means re-sorted descending. -/
def lyapunov_period (lg : ℚ → ℚ) (eig : EigOracle) (xpoints : List ℚ)
    (av bv : ℚ) : List ℚ :=
  let lya1 := xpoints.map fun x => (lyapunov_point lg eig x av bv).getD 0 0
  let lya2 := xpoints.map fun x => (lyapunov_point lg eig x av bv).getD 1 0
  [max (npMean lya1) (npMean lya2), min (npMean lya1) (npMean lya2)]

/-- Python `max` over a non-empty list (junk `0` for `[]`, which the source
never passes). -/
def listMax : List ℚ → ℚ
  | [] => 0
  | x :: xs => xs.foldl max x

/-- Python `min` over a non-empty list (junk `0` for `[]`). -/
def listMin : List ℚ → ℚ
  | [] => 0
  | x :: xs => xs.foldl min x

/-- Result of one parameter cell in the sweep branches of `calc_lya_henon`:
the two recorded entries (Python `None` modelled as `none`) and whether the
fixed-point and periodic-cycle oracles were invoked for this cell. -/
structure CellOut where
  e1 : Option ℚ
  e2 : Option ℚ
  askedPoint : Bool
  askedPeriod : Bool
deriving DecidableEq

/-- One `(a, b)` cell of the array×array branch of `calc_lya_henon`
(source lines 180–213): divergence test first, then both detection oracles,
then the fast paths or the full iteration.  The source test
`if lya[0] != None` on the last path is always true — `Lyapunov` returns a
list of numbers — so the numeric pair is recorded unconditionally there. -/
def lyaCell (lg : ℚ → ℚ) (eig : EigOracle) (hn : HenonOracle)
    (dp : PointOracle) (dpr : PeriodOracle) (Ninit cutoff : ℕ)
    (start : ℚ × ℚ) (dv : Bool) (bvs : List (List ℚ)) (a b : ℚ) : CellOut :=
  match hn start.1 start.2 Ninit a b dv with
  | none => ⟨none, none, false, false⟩
  | some (xvalues, yvalues) =>
      let point_attr := dp (some xvalues) (some yvalues)
      let lim_cycle := dpr (some xvalues) (some yvalues)
      match point_attr with
      | some p =>
          ⟨some ((lyapunov_point lg eig (p.getD 0 0) a b).getD 0 0),
           some ((lyapunov_point lg eig (p.getD 0 0) a b).getD 1 0),
           true, true⟩
      | none =>
          match lim_cycle with
          | some c =>
              ⟨some ((lyapunov_period lg eig c.2 a b).getD 0 0),
               some ((lyapunov_period lg eig c.2 a b).getD 1 0),
               true, true⟩
          | none =>
              let lya := Lyapunov lg (Ninit - cutoff) bvs
                  (xvalues.drop cutoff) a b
              ⟨some (listMax lya), some (listMin lya), true, true⟩

/-- One cell of the two one-array branches of `calc_lya_henon` (source
lines 229–261 and 274–306).  These branches never assign `basisVects`, so
their final path raises `UnboundLocalError` in Python; that raise is the
`Except.error` case here. -/
def lyaCellOneD (lg : ℚ → ℚ) (eig : EigOracle) (hn : HenonOracle)
    (dp : PointOracle) (dpr : PeriodOracle) (Ninit cutoff : ℕ)
    (start : ℚ × ℚ) (dv : Bool) (a b : ℚ) : Except String CellOut :=
  match hn start.1 start.2 Ninit a b dv with
  | none => .ok ⟨none, none, false, false⟩
  | some (xvalues, yvalues) =>
      let point_attr := dp (some xvalues) (some yvalues)
      let lim_cycle := dpr (some xvalues) (some yvalues)
      match point_attr with
      | some p =>
          .ok ⟨some ((lyapunov_point lg eig (p.getD 0 0) a b).getD 0 0),
               some ((lyapunov_point lg eig (p.getD 0 0) a b).getD 1 0),
               true, true⟩
      | none =>
          match lim_cycle with
          | some c =>
              .ok ⟨some ((lyapunov_period lg eig c.2 a b).getD 0 0),
                   some ((lyapunov_period lg eig c.2 a b).getD 1 0),
                   true, true⟩
          | none => .error "UnboundLocalError: basisVects"

/-- Collect the per-cell results of a one-array branch in order, the first
recorded entry of each cell into the first list and the second into the
second; a raised error aborts the whole call, as an uncaught Python
exception would. -/
def collectCells : List (Except String CellOut) →
    Except String (List (Option ℚ) × List (Option ℚ))
  | [] => .ok ([], [])
  | .error e :: _ => .error e
  | .ok c :: rest =>
      match collectCells rest with
      | .error e => .error e
      | .ok (r1, r2) => .ok (c.e1 :: r1, c.e2 :: r2)

/-- Result of the scalar×scalar branch of `calc_lya_henon`, together with
the record of which detection oracles the branch invoked. -/
structure ScalarOut where
  result : Option (List ℚ)
  askedPoint : Bool
  askedPeriod : Bool
deriving DecidableEq

/-- The scalar×scalar branch of `calc_lya_henon` (source lines 310–339).
The source calls both detection oracles on the orbit *before* testing the
divergence sentinel, so they are invoked on the sentinel as well; the
branch then returns the single `None` (not a pair) on divergence, and
otherwise the exponent list of the matching path. -/
def calcScalar (lg : ℚ → ℚ) (eig : EigOracle) (hn : HenonOracle)
    (dp : PointOracle) (dpr : PeriodOracle) (Ninit cutoff : ℕ)
    (start : ℚ × ℚ) (dv : Bool) (A B : ℚ) : ScalarOut :=
  let orb := hn start.1 start.2 Ninit A B dv
  let point_attr := dp (orb.map Prod.fst) (orb.map Prod.snd)
  let lim_cycle := dpr (orb.map Prod.fst) (orb.map Prod.snd)
  match orb with
  | none => ⟨none, true, true⟩
  | some (xvalues, _) =>
      match point_attr with
      | some p => ⟨some (lyapunov_point lg eig (p.getD 0 0) A B), true, true⟩
      | none =>
          match lim_cycle with
          | some c => ⟨some (lyapunov_period lg eig c.2 A B), true, true⟩
          | none =>
              ⟨some (Lyapunov lg (Ninit - cutoff) (basisFn 2)
                  (xvalues.drop cutoff) A B), true, true⟩

/-- The `A`/`B` arguments of `calc_lya_henon`: a Python `int`/`float`
(`scalar`), an `np.ndarray` (`arr`), or any other object (`other`),
mirroring the `isinstance` tests of the source. -/
inductive PyParam where
  | scalar (q : ℚ)
  | arr (l : List ℚ)
  | other
deriving DecidableEq

/-- The shapes `calc_lya_henon` can return: a 2-D grid pair, a 1-D pair of
parallel lists, or a single scalar-case result. -/
inductive CalcOut where
  | grid2 (e1 e2 : List (List (Option ℚ))) : CalcOut
  | oneD (e1 e2 : List (Option ℚ)) : CalcOut
  | single (r : Option (List ℚ)) : CalcOut
deriving DecidableEq

/-- Source `calc_lya_henon`: dispatch on the four supported
scalar/array combinations in source order, `ValueError` otherwise.  In the
array×array and scalar×scalar branches `basisVects = basis(len(start))`
with `start` a pair, hence `basisFn 2`. -/
def calc_lya_henon (lg : ℚ → ℚ) (eig : EigOracle) (hn : HenonOracle)
    (dp : PointOracle) (dpr : PeriodOracle) (Ninit cutoff : ℕ)
    (start : ℚ × ℚ) (dv : Bool) : PyParam → PyParam → Except String CalcOut
  | .arr As, .arr Bs =>
      .ok (.grid2
        (As.map fun a => Bs.map fun b =>
          (lyaCell lg eig hn dp dpr Ninit cutoff start dv (basisFn 2) a b).e1)
        (As.map fun a => Bs.map fun b =>
          (lyaCell lg eig hn dp dpr Ninit cutoff start dv (basisFn 2) a b).e2))
  | .arr As, .scalar B =>
      match collectCells (As.map fun a =>
          lyaCellOneD lg eig hn dp dpr Ninit cutoff start dv a B) with
      | .error e => .error e
      | .ok (r1, r2) => .ok (.oneD r1 r2)
  | .scalar A, .arr Bs =>
      match collectCells (Bs.map fun b =>
          lyaCellOneD lg eig hn dp dpr Ninit cutoff start dv A b) with
      | .error e => .error e
      | .ok (r1, r2) => .ok (.oneD r1 r2)
  | .scalar A, .scalar B =>
      .ok (.single
        (calcScalar lg eig hn dp dpr Ninit cutoff start dv A B).result)
  | _, _ => .error "invalid input for A and/or B parameter"

/-- Source `det_att`.  The integer labels: `0`/`1` point
attractor, `2` invariant circle, `3`/`4` chaotic attractor, `5` no
attractor.  `lya1 = None` is modelled by `Option.none`. -/
def det_att (lya1 : Option ℚ) (lya2 : ℚ) (acc : ℚ) : ℕ :=
  match lya1 with
  | none => 5
  | some l1 =>
      if l1 < 0 - acc then
        if l1 > lya2 + acc then 0 else 1
      else if l1 > -acc ∧ l1 < acc then 2
      else if l1 > 0 then
        if lya2 < acc then 3 else 4
      else 5

/-! ### Helper lemmas about the vector primitives -/

theorem getD_map_range {α : Type} (f : ℕ → α) (d : α) (n i : ℕ) (hi : i < n) :
    ((List.range n).map f).getD i d = f i := by
  have h1 : i < ((List.range n).map f).length := by simpa using hi
  rw [List.getD_eq_getElem _ _ h1]
  simp

theorem norm_vect_nonneg (v : List ℚ) : 0 ≤ norm_vect v := by
  induction v with
  | nil => simp [norm_vect]
  | cons x xs ih =>
      simp only [norm_vect, List.map_cons, List.sum_cons] at ih ⊢
      nlinarith [mul_self_nonneg x]

theorem norm_vect_eq_zero {v : List ℚ} (h : norm_vect v = 0) :
    ∀ x ∈ v, x = 0 := by
  induction v with
  | nil => simp
  | cons x xs ih =>
      simp only [norm_vect, List.map_cons, List.sum_cons] at h
      have hx2 : 0 ≤ x * x := mul_self_nonneg x
      have hxs : 0 ≤ norm_vect xs := norm_vect_nonneg xs
      simp only [norm_vect] at hxs
      have h1 : x * x = 0 := by linarith
      have h2 : norm_vect xs = 0 := by simp only [norm_vect]; linarith
      intro y hy
      rcases List.mem_cons.mp hy with rfl | hy'
      · exact mul_self_eq_zero.mp h1
      · exact ih h2 y hy'

theorem inner_vect_self (v : List ℚ) : inner_vect v v = norm_vect v := by
  induction v with
  | nil => simp [inner_vect, norm_vect]
  | cons x xs ih =>
      simp only [inner_vect, norm_vect, List.zipWith_cons_cons, List.map_cons,
        List.sum_cons] at ih ⊢
      rw [ih]

/-! ### C5 -/

/-- C5: for every nonzero vector `v`, the `norm_vect` of the source equals
`inner_vect v v` (both are the sum of the squared components), hence
`proj_vect v v` scales `v` by exactly `1` and returns `v` unchanged. -/
theorem proj_vect_self (v : List ℚ) (h : ∃ x ∈ v, x ≠ 0) :
    norm_vect v = inner_vect v v ∧ proj_vect v v = v := by
  have hnz : norm_vect v ≠ 0 := by
    intro h0
    obtain ⟨x, hx, hxne⟩ := h
    exact hxne (norm_vect_eq_zero h0 x hx)
  refine ⟨(inner_vect_self v).symm, ?_⟩
  unfold proj_vect
  rw [inner_vect_self, div_self hnz]
  simp [smul]

/-- Witness for `proj_vect_self` at `v = [3, 4]`. -/
theorem proj_vect_self_inst :
    norm_vect [(3 : ℚ), 4] = inner_vect [(3 : ℚ), 4] [(3 : ℚ), 4] ∧
      proj_vect [(3 : ℚ), 4] [(3 : ℚ), 4] = [(3 : ℚ), 4] :=
  proj_vect_self [(3 : ℚ), 4] ⟨3, by decide, by decide⟩

/-! ### C4 -/

/-- C4: on a non-empty input, `Gram_Schmidt` keeps the length and ordering,
leaves the first vector unchanged, and each later entry `k` is the input
vector minus the single projection onto the immediately preceding *input*
vector — one projection term, no normalization. -/
theorem gram_schmidt_single_projection (vs : List (List ℚ)) (h : vs ≠ []) :
    (Gram_Schmidt vs).length = vs.length ∧
      (Gram_Schmidt vs).getD 0 [] = vs.getD 0 [] ∧
      ∀ k, 1 ≤ k → k < vs.length →
        (Gram_Schmidt vs).getD k [] =
          vsub (vs.getD k []) (proj_vect (vs.getD (k - 1) []) (vs.getD k [])) := by
  match vs with
  | [] => exact absurd rfl h
  | v0 :: rest =>
      refine ⟨by simp [Gram_Schmidt], by simp [Gram_Schmidt], ?_⟩
      intro k hk1 hklt
      obtain ⟨i, rfl⟩ : ∃ i, k = i + 1 := ⟨k - 1, by omega⟩
      have hi : i < rest.length := by
        simpa [List.length_cons] using hklt
      simp only [Gram_Schmidt, List.getD_cons_succ, Nat.add_sub_cancel]
      rw [getD_map_range _ _ _ _ hi]

/-- Witness for `gram_schmidt_single_projection` at `[[1, 0], [1, 1]]`. -/
theorem gram_schmidt_single_projection_inst :
    (Gram_Schmidt [[(1 : ℚ), 0], [1, 1]]).length = 2 ∧
      (Gram_Schmidt [[(1 : ℚ), 0], [1, 1]]).getD 1 [] =
        vsub [1, 1] (proj_vect [1, 0] [1, 1]) := by
  have h := gram_schmidt_single_projection [[(1 : ℚ), 0], [1, 1]] (by decide)
  exact ⟨h.1, h.2.2 1 (by decide) (by decide)⟩

/-! ### C2 -/

/-- C2 fails at the band boundary: with tolerance `1/10` and exponents
`lya1 = -1/10 ≥ lya2 = -1`, the source classifies as `5` (no attractor),
not `2` (invariant circle), because its band test `lya1 > -acc` is
strict. -/
theorem det_att_boundary_not_circle :
    det_att (some (-(1 : ℚ) / 10)) (-1) (1 / 10) = 5 ∧
      det_att (some (-(1 : ℚ) / 10)) (-1) (1 / 10) ≠ 2 := by
  norm_num [det_att]

/-- C2 (amended): for `lya1 ≥ lya2` and positive tolerance `acc`,
`det_att` returns the invariant-circle label `2` exactly on the open band
`-acc < lya1 < acc`; at the boundary `lya1 = -acc` it returns `5`
(no attractor). -/
theorem det_att_invariant_circle_band (lya1 lya2 acc : ℚ)
    (hord : lya2 ≤ lya1) (hacc : 0 < acc) :
    (-acc < lya1 → lya1 < acc → det_att (some lya1) lya2 acc = 2) ∧
      (lya1 = -acc → det_att (some lya1) lya2 acc = 5) := by
  constructor
  · intro h1 h2
    simp only [det_att, zero_sub]
    rw [if_neg (not_lt.mpr (le_of_lt h1)), if_pos ⟨h1, h2⟩]
  · intro heq
    subst heq
    simp only [det_att, zero_sub]
    rw [if_neg (lt_irrefl (-acc)),
      if_neg (fun hc : -acc > -acc ∧ -acc < acc => lt_irrefl (-acc) hc.1),
      if_neg (show ¬(-acc > 0) by intro hc; linarith)]

/-- Witness for `det_att_invariant_circle_band` at
`lya1 = 0, lya2 = -5, acc = 1/10`. -/
theorem det_att_invariant_circle_band_inst :
    det_att (some (0 : ℚ)) (-5) (1 / 10) = 2 :=
  (det_att_invariant_circle_band 0 (-5) (1 / 10) (by norm_num)
    (by norm_num)).1 (by norm_num) (by norm_num)

/-! ### Helper lemmas about the iteration -/

theorem basisFn_two : basisFn 2 = [[1, 0], [0, 1]] := rfl

theorem gram_schmidt_pair (v0 v1 : List ℚ) :
    Gram_Schmidt [v0, v1] = [v0, vsub v1 (proj_vect v0 v1)] := by
  simp [Gram_Schmidt, show List.range 1 = [0] from rfl]

/-! ### C1 -/

/-- C1 fails: at loop iteration `n = 1` of `Lyapunov`, on the orbit
`xvalues = [0, 1]` with `A = 1, B = 0`, the Jacobian variable that
propagates the vectors (the `J` component of the entering state, which
`lyapStep` applies) is the one built from `xvalues[0] = 0`, not the one
rebuilt from `xvalues[1] = 1`. -/
theorem lyap_jacobian_not_from_current :
    (LyapStateAt (fun q => q) (basisFn 2) [0, 1] 1 0 1).J ≠ jacobian 1 0 1 ∧
      (LyapStateAt (fun q => q) (basisFn 2) [0, 1] 1 0 1).J = jacobian 1 0 0 := by
  have hJ : (LyapStateAt (fun q => q) (basisFn 2) [0, 1] 1 0 1).J =
      jacobian 1 0 0 := by
    simp [LyapStateAt, lyapInit, show List.range' 1 0 = ([] : List ℕ) from rfl]
  refine ⟨?_, hJ⟩
  rw [hJ]
  intro hc
  rw [jacobian, jacobian, Prod.ext_iff, Prod.ext_iff, Prod.ext_iff] at hc
  have := hc.1.1
  norm_num at this

/-- C1 (amended): on entry to loop iteration `n ≥ 1` of `Lyapunov`, the
Jacobian variable — the matrix `lyapStep` applies to propagate the basis
vectors at that iteration — is the Jacobian built from `xvalues[n-1]`; the
Jacobian rebuilt from `xvalues[n]` is assigned only after the propagation,
for use at iteration `n+1`. -/
theorem lyap_jacobian_from_previous (lg : ℚ → ℚ) (bs : List (List ℚ))
    (xs : List ℚ) (A B : ℚ) (n : ℕ) (h : 1 ≤ n) :
    (LyapStateAt lg bs xs A B n).J = jacobian A B (xs.getD (n - 1) 0) := by
  obtain ⟨k, rfl⟩ : ∃ k, n = k + 1 := ⟨n - 1, by omega⟩
  cases k with
  | zero => simp [LyapStateAt, lyapInit]
  | succ j =>
      unfold LyapStateAt
      rw [Nat.add_sub_cancel, List.range'_1_concat, List.foldl_append,
        List.foldl_cons, List.foldl_nil]
      show jacobian A B (xs.getD (1 + j) 0) = jacobian A B (xs.getD (j + 1) 0)
      rw [Nat.add_comm 1 j]

/-- Witness for `lyap_jacobian_from_previous` at `n = 2` on the orbit
`[5, 7, 9]`: the Jacobian applied at iteration 2 comes from
`xvalues[1] = 7`. -/
theorem lyap_jacobian_from_previous_inst :
    (LyapStateAt (fun q => q) (basisFn 2) [5, 7, 9] 1 2 2).J = jacobian 1 2 7 := by
  have h := lyap_jacobian_from_previous (fun q => q) (basisFn 2) [5, 7, 9] 1 2 2
    (by norm_num)
  simpa using h

/-! ### C10 -/

/-- The loop body reads the orbit only to rebuild `J`; its `us` and `exps`
components are functions of the entering state alone. -/
theorem foldl_lyapStep_agree (lg : ℚ → ℚ) (A B : ℚ) (xs ys : List ℚ) :
    ∀ (L : List ℕ) (st : LyapState),
      (∀ n ∈ L.dropLast, xs.getD n 0 = ys.getD n 0) →
      (L.foldl (lyapStep lg xs A B) st).us =
          (L.foldl (lyapStep lg ys A B) st).us ∧
        (L.foldl (lyapStep lg xs A B) st).exps =
          (L.foldl (lyapStep lg ys A B) st).exps
  | [], _, _ => ⟨rfl, rfl⟩
  | [_], _, _ => ⟨rfl, rfl⟩
  | n :: m :: L, st, h => by
      have hn : xs.getD n 0 = ys.getD n 0 := by
        apply h
        rw [List.dropLast_cons₂]
        exact List.mem_cons_self n _
      have hstep : lyapStep lg xs A B st n = lyapStep lg ys A B st n := by
        unfold lyapStep
        rw [hn]
      rw [List.foldl_cons, List.foldl_cons, hstep]
      exact foldl_lyapStep_agree lg A B xs ys (m :: L) (lyapStep lg ys A B st n)
        fun x hx => h x (by rw [List.dropLast_cons₂]; exact List.mem_cons_of_mem _ hx)

/-- C10 fails at `N = 1`: only the first step runs, and its Jacobian is
built from `xvalues[0] = xvalues[N-1]`, so the result does depend on the
final orbit value. -/
theorem lyapunov_reads_last_at_one :
    Lyapunov (fun q => q) 1 (basisFn 2) [0] 1 1 ≠
      Lyapunov (fun q => q) 1 (basisFn 2) [1] 1 1 := by
  norm_num [Lyapunov, LyapStateAt, lyapInit, accumNorm, basisFn_two,
    gram_schmidt_pair, matmul2, jacobian, norm_vect, inner_vect, proj_vect,
    smul, vsub, show List.range' 1 0 = ([] : List ℕ) from rfl,
    show List.replicate 2 (0 : ℚ) = [0, 0] from rfl]

/-- C10 (amended): for `N ≥ 2`, the result of `Lyapunov` does not depend on
the final orbit value `xvalues[N-1]`: two orbits of length `N` that agree
below index `N-1` give identical exponent lists, because the Jacobian built
from the last orbit value is assigned after the final propagation and never
applied. -/
theorem lyapunov_ignores_last (lg : ℚ → ℚ) (bs : List (List ℚ))
    (xs ys : List ℚ) (A B : ℚ) (N : ℕ) (hN : 2 ≤ N)
    (hagree : ∀ i, i < N - 1 → xs.getD i 0 = ys.getD i 0) :
    Lyapunov lg N bs xs A B = Lyapunov lg N bs ys A B := by
  have hinit : lyapInit lg bs xs A B = lyapInit lg bs ys A B := by
    have h0 : xs.getD 0 0 = ys.getD 0 0 := hagree 0 (by omega)
    unfold lyapInit
    rw [h0]
  have hdrop : (List.range' 1 (N - 1)).dropLast = List.range' 1 (N - 2) := by
    have h1 : N - 1 = (N - 2) + 1 := by omega
    rw [h1, List.range'_1_concat, List.dropLast_concat]
  have hmem : ∀ n ∈ (List.range' 1 (N - 1)).dropLast,
      xs.getD n 0 = ys.getD n 0 := by
    intro n hn
    rw [hdrop] at hn
    have hb := List.mem_range'_1.mp hn
    exact hagree n (by omega)
  have key := foldl_lyapStep_agree lg A B xs ys (List.range' 1 (N - 1))
    (lyapInit lg bs xs A B) hmem
  unfold Lyapunov LyapStateAt
  rw [key.2, hinit]

/-- Witness for `lyapunov_ignores_last`: two length-2 orbits differing only
in the last entry give the same exponents. -/
theorem lyapunov_ignores_last_inst :
    Lyapunov (fun q => q) 2 (basisFn 2) [3, 100] 1 1 =
      Lyapunov (fun q => q) 2 (basisFn 2) [3, 200] 1 1 :=
  lyapunov_ignores_last (fun q => q) (basisFn 2) [3, 100] [3, 200] 1 1 2
    (by norm_num)
    (fun i hi => by
      have hi0 : i = 0 := by omega
      subst hi0
      rfl)

/-! ### Length invariants of the iteration -/

theorem gram_schmidt_length (vs : List (List ℚ)) :
    (Gram_Schmidt vs).length = vs.length := by
  cases vs <;> simp [Gram_Schmidt]

theorem lyapInit_lengths (lg : ℚ → ℚ) (bs : List (List ℚ)) (xs : List ℚ)
    (A B : ℚ) :
    (lyapInit lg bs xs A B).us.length = bs.length ∧
      (lyapInit lg bs xs A B).exps.length = bs.length := by
  constructor <;> simp [lyapInit, accumNorm, gram_schmidt_length]

theorem lyapStep_lengths (lg : ℚ → ℚ) (xs : List ℚ) (A B : ℚ)
    (st : LyapState) (n d : ℕ) (h1 : st.us.length = d)
    (h2 : st.exps.length = d) :
    (lyapStep lg xs A B st n).us.length = d ∧
      (lyapStep lg xs A B st n).exps.length = d := by
  constructor <;> simp [lyapStep, accumNorm, gram_schmidt_length, h1, h2]

theorem foldl_lyapStep_lengths (lg : ℚ → ℚ) (xs : List ℚ) (A B : ℚ) (d : ℕ) :
    ∀ (L : List ℕ) (st : LyapState), st.us.length = d → st.exps.length = d →
      (L.foldl (lyapStep lg xs A B) st).us.length = d ∧
        (L.foldl (lyapStep lg xs A B) st).exps.length = d
  | [], _, h1, h2 => ⟨h1, h2⟩
  | n :: L, st, h1, h2 => by
      rw [List.foldl_cons]
      exact foldl_lyapStep_lengths lg xs A B d L _
        (lyapStep_lengths lg xs A B st n d h1 h2).1
        (lyapStep_lengths lg xs A B st n d h1 h2).2

/-! ### C7 -/

/-- C7 fails: with `a = b = 0` the first propagated set contains the zero
vector — `LyapHasZeroNorm` holds for exactly the `Lyapunov` call the cell
performs — yet the cell records a `some` pair, not the `(None, None)`
sentinel, because the iteration never fails. -/
theorem zero_norm_cell_records_some :
    LyapHasZeroNorm (fun q => q) (basisFn 2) [0, 0, 0] 0 0 3 = true ∧
      (lyaCell (fun q => q) (fun _ _ _ => (1, 1))
          (fun _ _ _ _ _ _ => some ([0, 0, 0], [0, 0, 0])) (fun _ _ => none)
          (fun _ _ => none) 3 0 (0, 0) true (basisFn 2) 0 0).e1 ≠ none ∧
      (lyaCell (fun q => q) (fun _ _ _ => (1, 1))
          (fun _ _ _ _ _ _ => some ([0, 0, 0], [0, 0, 0])) (fun _ _ => none)
          (fun _ _ => none) 3 0 (0, 0) true (basisFn 2) 0 0).e2 ≠ none := by
  refine ⟨?_, ?_, ?_⟩
  · norm_num [LyapHasZeroNorm, basisFn_two, gram_schmidt_pair, matmul2,
      jacobian, norm_vect, inner_vect, proj_vect, smul, vsub]
  · simp [lyaCell]
  · simp [lyaCell]

/-- C7 (amended): the exponent iteration never fails — `Lyapunov` always
returns a list of `dim = len(basis)` numbers (on a zero norm the source
computes `np.log(0)` and divides by zero rather than aborting) — and a
sweep cell records the `none` sentinel pair exactly when the trajectory
oracle signals divergence, never because of the iteration, whose guard
`lya[0] != None` in the source is always true. -/
theorem lyapunov_never_fails (lg : ℚ → ℚ) (eig : EigOracle)
    (hn : HenonOracle) (dp : PointOracle) (dpr : PeriodOracle)
    (Ninit cutoff N : ℕ) (start : ℚ × ℚ) (dv : Bool)
    (bvs bs : List (List ℚ)) (xs : List ℚ) (A B a b : ℚ) :
    (Lyapunov lg N bs xs A B).length = bs.length ∧
      ((lyaCell lg eig hn dp dpr Ninit cutoff start dv bvs a b).e1 = none ↔
        hn start.1 start.2 Ninit a b dv = none) := by
  constructor
  · have h := foldl_lyapStep_lengths lg xs A B bs.length
      (List.range' 1 (N - 1)) (lyapInit lg bs xs A B)
      (lyapInit_lengths lg bs xs A B).1 (lyapInit_lengths lg bs xs A B).2
    simpa [Lyapunov, LyapStateAt] using h.2
  · cases hh : hn start.1 start.2 Ninit a b dv with
    | none => simp [lyaCell, hh]
    | some orb =>
        obtain ⟨xv, yv⟩ := orb
        cases hp : dp (some xv) (some yv) with
        | some p => simp [lyaCell, hh, hp]
        | none =>
            cases hc : dpr (some xv) (some yv) with
            | some c => simp [lyaCell, hh, hp, hc]
            | none => simp [lyaCell, hh, hp, hc]

/-! ### C3 -/

/-- C3 fails in the scalar×scalar branch: with a diverging trajectory
oracle the source still invokes both detection oracles — on the sentinel
orbit — before its divergence test, and then returns a single `None`
rather than recording a pair. -/
theorem scalar_branch_asks_oracles_on_divergence :
    (calcScalar (fun q => q) (fun _ _ _ => (1, 1)) (fun _ _ _ _ _ _ => none)
        (fun _ _ => none) (fun _ _ => none) 10 2 (0, 0) true 1 1).askedPoint
        = true ∧
      (calcScalar (fun q => q) (fun _ _ _ => (1, 1)) (fun _ _ _ _ _ _ => none)
        (fun _ _ => none) (fun _ _ => none) 10 2 (0, 0) true 1 1).askedPeriod
        = true ∧
      (calcScalar (fun q => q) (fun _ _ _ => (1, 1)) (fun _ _ _ _ _ _ => none)
        (fun _ _ => none) (fun _ _ => none) 10 2 (0, 0) true 1 1).result
        = none :=
  ⟨rfl, rfl, rfl⟩

/-- C3 (amended): in the three array branches a diverging cell records the
sentinel pair `(none, none)` and the detection oracles are not invoked for
that cell; in the scalar×scalar branch the source invokes both detection
oracles on the diverged (sentinel) orbit before its divergence test and
returns a single `None`. -/
theorem divergence_short_circuit (lg : ℚ → ℚ) (eig : EigOracle)
    (hn : HenonOracle) (dp : PointOracle) (dpr : PeriodOracle)
    (Ninit cutoff : ℕ) (start : ℚ × ℚ) (dv : Bool) (bvs : List (List ℚ))
    (a b : ℚ) (hdiv : hn start.1 start.2 Ninit a b dv = none) :
    lyaCell lg eig hn dp dpr Ninit cutoff start dv bvs a b =
        ⟨none, none, false, false⟩ ∧
      lyaCellOneD lg eig hn dp dpr Ninit cutoff start dv a b =
        .ok ⟨none, none, false, false⟩ ∧
      calcScalar lg eig hn dp dpr Ninit cutoff start dv a b =
        ⟨none, true, true⟩ := by
  refine ⟨?_, ?_, ?_⟩ <;> simp [lyaCell, lyaCellOneD, calcScalar, hdiv]

/-- Witness for `divergence_short_circuit` with a constantly diverging
trajectory oracle and detection oracles that would find results if
asked. -/
theorem divergence_short_circuit_inst :
    lyaCell (fun q => q) (fun _ _ _ => (1, 1)) (fun _ _ _ _ _ _ => none)
        (fun _ _ => some [0]) (fun _ _ => some (1, [0])) 5 1 (0, 0) true
        (basisFn 2) 1 1 = ⟨none, none, false, false⟩ :=
  (divergence_short_circuit (fun q => q) (fun _ _ _ => (1, 1))
    (fun _ _ _ _ _ _ => none) (fun _ _ => some [0])
    (fun _ _ => some (1, [0])) 5 1 (0, 0) true (basisFn 2) 1 1 rfl).1

/-! ### C8 -/

/-- C8: any `A`/`B` argument combination that is not one of the four
supported scalar/array forms is rejected with the `ValueError` of the
source, for every oracle and every other argument — no orbit generation or
exponent computation is performed and nothing is coerced. -/
theorem calc_rejects_invalid_params (lg : ℚ → ℚ) (eig : EigOracle)
    (hn : HenonOracle) (dp : PointOracle) (dpr : PeriodOracle)
    (Ninit cutoff : ℕ) (start : ℚ × ℚ) (dv : Bool) (A B : PyParam)
    (h : A = PyParam.other ∨ B = PyParam.other) :
    calc_lya_henon lg eig hn dp dpr Ninit cutoff start dv A B =
      .error "invalid input for A and/or B parameter" := by
  rcases h with rfl | rfl
  · cases B <;> rfl
  · cases A <;> rfl

/-- Witness for `calc_rejects_invalid_params` with `A` a non-scalar,
non-array object and `B = 1`. -/
theorem calc_rejects_invalid_params_inst :
    calc_lya_henon (fun q => q) (fun _ _ _ => (1, 1))
        (fun _ _ _ _ _ _ => none) (fun _ _ => none) (fun _ _ => none) 5 1
        (0, 0) true PyParam.other (PyParam.scalar 1) =
      .error "invalid input for A and/or B parameter" :=
  calc_rejects_invalid_params (fun q => q) (fun _ _ _ => (1, 1))
    (fun _ _ _ _ _ _ => none) (fun _ _ => none) (fun _ _ => none) 5 1 (0, 0)
    true PyParam.other (PyParam.scalar 1) (Or.inl rfl)

/-! ### C9 -/

/-- C9: the array×scalar branch of `calc_lya_henon` raises instead of
returning the two index-aligned length-1 sequences as soon as a cell falls
through to the iterator path, because `basisVects` is referenced but never
assigned in the one-array branches of the source.  Input: `A = [1]`,
`B = 3/10`, a non-divergent orbit, and detection oracles that find
nothing — the generic chaotic cell. -/
theorem one_array_branch_unbound_basis :
    calc_lya_henon (fun q => q) (fun _ _ _ => (1, 1))
        (fun _ _ _ _ _ _ => some ([0, 0, 0], [0, 0, 0])) (fun _ _ => none)
        (fun _ _ => none) 3 0 (0, 0) true (PyParam.arr [1])
        (PyParam.scalar (3 / 10)) = .error "UnboundLocalError: basisVects" := by
  rfl

/-! ### C6 -/

/-- C6: on a non-empty cycle, `lyapunov_period` computes the per-point
exponent pairs via `lyapunov_point`, takes the arithmetic mean of the
max-branch values and of the min-branch values independently, and returns
the two means re-sorted descending: the larger mean first, the other
second. -/
theorem lyapunov_period_mean_resort (lg : ℚ → ℚ) (eig : EigOracle)
    (xpoints : List ℚ) (av bv : ℚ) (h : xpoints ≠ []) :
    lyapunov_period lg eig xpoints av bv =
        [max ((xpoints.map fun x =>
                (lyapunov_point lg eig x av bv).getD 0 0).sum / xpoints.length)
            ((xpoints.map fun x =>
                (lyapunov_point lg eig x av bv).getD 1 0).sum / xpoints.length),
         min ((xpoints.map fun x =>
                (lyapunov_point lg eig x av bv).getD 0 0).sum / xpoints.length)
            ((xpoints.map fun x =>
                (lyapunov_point lg eig x av bv).getD 1 0).sum / xpoints.length)] ∧
      (lyapunov_period lg eig xpoints av bv).getD 1 0 ≤
        (lyapunov_period lg eig xpoints av bv).getD 0 0 := by
  constructor
  · simp [lyapunov_period, npMean]
  · show min _ _ ≤ max _ _
    exact min_le_max

/-- Witness for `lyapunov_period_mean_resort` on the cycle `[1, 2]` with a
concrete eigenvalue oracle. -/
theorem lyapunov_period_mean_resort_inst :
    lyapunov_period (fun q => q) (fun x a b => (x + a, b)) [(1 : ℚ), 2] 1 1 =
      [5 / 2, 1] := by
  have h := lyapunov_period_mean_resort (fun q => q)
    (fun x a b => (x + a, b)) [(1 : ℚ), 2] 1 1 (by simp)
  rw [h.1]
  norm_num [lyapunov_point, max_def, min_def]

end Henon
